import Mathlib

/-!
Shallow embedding of the core of the ecu-reader firmware-calibration tool.

The tool reads, scans, compares and mutates fixed-layout binary calibration
tables inside a firmware image.  The embedding models:

* the raw/physical codec from `ReadMap` and the cell-edit functions: Go
  float64 arithmetic is idealized as exact rational arithmetic, and the Go
  float-to-unsigned-integer conversion is modelled as truncation toward zero
  followed by wrapping into the storage width;
* the table reader (`pkg/reader/config_reader.go` ReadMap and the identical
  `main.go` readMap): a seek to the table offset followed by sequential one-
  or two-byte little-endian reads;
* the scanner (`pkg/scanner/scanner.go` hasGoodVariance and the
  `ScanForMaps`/`scanUint8`/`scanUint16` variant): candidate windows at
  0x40-aligned offsets with a min/max spread test;
* the differ (`pkg/compare/compare.go` compareMapData and the statistics
  loop of displayComparison);
* the editor write paths: `EditMapCellDirect`, the editor-package
  `WriteConfigParam`, the reader-package `WriteConfigParam` (the only write
  path that creates a backup itself) and the cell-scaling loop of `ScaleMap`.
  The file system is modelled as the image byte list plus the list of backup
  snapshots; success of the backup file write is an explicit boolean
  parameter where the source can observe its failure;
* the axis-label derivation of the CSV export and the difference view
  (`main.go` exportMapToCSV, `pkg/compare/compare.go` visualizeDifferences).

Bytes are natural numbers below 256; images are lists of bytes.
-/

namespace ECUReader

/-! ## Rationals standing in for Go float64, and integer narrowing -/

/-- Truncation toward zero of a rational: the Go conversion from float64 to an
integer type discards the fractional part.  On a reduced fraction this is the
truncating integer division of numerator by denominator. -/
def truncQ (q : ℚ) : ℤ := q.num.tdiv q.den

/-- Go `uint8(x)`: wrap into one byte (the narrowing the spec calls
"wraps mod 256"). -/
def u8wrap (z : ℤ) : ℕ := (z % 256).toNat

/-- Go `uint16(x)`: wrap into two bytes. -/
def u16wrap (z : ℤ) : ℕ := (z % 65536).toNat

/-! ## Codec

`decode` is the affine transform applied by every read path
(`value = float64(rawValue)*cfg.Scale + cfg.Offset2`); `encode` is the
inverse used by every write path
(`raw = uintN((newValue - cfg.Offset2) / cfg.Scale)`). -/

/-- Decode a stored raw integer to a physical value. -/
def decodeVal (raw : ℕ) (scale bias : ℚ) : ℚ := raw * scale + bias

/-- Encode a physical value to a raw unsigned integer of `width` bytes:
truncate the inverse affine transform toward zero, then wrap into the
storage width. -/
def encodeRaw (v scale bias : ℚ) (width : ℕ) : ℕ :=
  (truncQ ((v - bias) / scale) % 2 ^ (8 * width)).toNat

/-! ## Data model -/

/-- A table descriptor (`pkg/models/models.go` MapConfig). -/
structure MapConfig where
  name : String
  offset : ℤ
  rows : ℕ
  cols : ℕ
  dataType : String
  scale : ℚ
  offset2 : ℚ
  unit : String
  descr : String
deriving DecidableEq

/-- A scalar parameter descriptor (`pkg/models/config.go` ConfigParam). -/
structure ConfigParam where
  name : String
  offset : ℤ
  dataType : String
  scale : ℚ
  offset2 : ℚ
  unit : String
  descr : String
  minValue : ℚ
  maxValue : ℚ
deriving DecidableEq

/-- The file-system state an operation can touch: the image file content and
the backup snapshots next to it (newest first). -/
structure FS where
  image : List ℕ
  backups : List (List ℕ)
deriving DecidableEq

deriving instance DecidableEq for Except

/-- The parameter catalog of `pkg/models/config.go`. -/
def ConfigParams : List ConfigParam :=
  [⟨"Rev Limiter", 0x7000, "uint8", mkRat 8537 100, 0, "RPM",
      "Maximum engine RPM limit", 6000, 7500⟩,
    ⟨"Idle Speed Target", 0x7001, "uint8", 10, 0, "RPM",
      "Target idle speed", 650, 1100⟩,
    ⟨"Unknown Param 1", 0x7002, "uint8", 1, 0, "raw",
      "Unknown parameter at 0x7002", 0, 255⟩,
    ⟨"Unknown Param 2", 0x7003, "uint8", 1, 0, "raw",
      "Unknown parameter at 0x7003", 0, 255⟩]

/-! ## Byte access -/

/-- Two-byte little-endian value at a position (bytes past the end read 0). -/
def u16LEat (img : List ℕ) (p : ℕ) : ℕ := img.getD p 0 + 256 * img.getD (p + 1) 0

/-- Two-byte big-endian value at a position. -/
def u16BEat (img : List ℕ) (p : ℕ) : ℕ := 256 * img.getD p 0 + img.getD (p + 1) 0

/-- One byte read, failing at end of file like `binary.Read`. -/
def readU8 (img : List ℕ) (p : ℕ) : Option ℕ :=
  if p < img.length then some (img.getD p 0) else none

/-- Two-byte little-endian read, failing when fewer than two bytes remain. -/
def readU16LE (img : List ℕ) (p : ℕ) : Option ℕ :=
  if p + 1 < img.length then some (u16LEat img p) else none

/-- Replace a byte inside the in-memory file data (`data[off] = b`).  The
callers bounds-check the first byte beforehand; out of range Go would panic
and this model leaves the list unchanged. -/
def storeByte (img : List ℕ) (off b : ℕ) : List ℕ := img.set off b

/-- `binary.LittleEndian.PutUint16(data[off:], w)`: low byte at `off`, high
byte at `off + 1`.  Go panics (writing nothing) when fewer than two bytes
remain, so callers of this model test `off + 1 < img.length` first and only
apply it with both bytes in range. -/
def storeU16LE (img : List ℕ) (off w : ℕ) : List ℕ :=
  (img.set off (w % 256)).set (off + 1) (w / 256)

/-- Store a run of bytes into the in-memory file data, one byte per offset. -/
def storeBytes : List ℕ → ℕ → List ℕ → List ℕ
  | img, _, [] => img
  | img, off, b :: bs => storeBytes (storeByte img off b) (off + 1) bs

/-- Write one byte through a file handle at an absolute offset: in range it
replaces the byte; past the end the file grows, zero-filling the gap (the
behavior of a seek past EOF followed by a write). -/
def writeByteFile (img : List ℕ) (off b : ℕ) : List ℕ :=
  if off < img.length then img.set off b
  else img ++ List.replicate (off - img.length) 0 ++ [b]

/-- Write a run of bytes through a file handle starting at an offset. -/
def writeBytesFile : List ℕ → ℕ → List ℕ → List ℕ
  | img, _, [] => img
  | img, off, b :: bs => writeBytesFile (writeByteFile img off b) (off + 1) bs

/-! ## Reader (`ReadMap` of `pkg/reader/config_reader.go` / `main.go`) -/

/-- Storage width chosen by ReadMap: one byte for the "uint8" tag, two bytes
for every other tag (there is no dispatch beyond this test). -/
def cellWidth (dataType : String) : ℕ := if dataType = "uint8" then 1 else 2

/-- One raw cell read at the cursor: `binary.Read` of a uint8 for the
"uint8" tag, of a little-endian uint16 otherwise. -/
def readVal (img : List ℕ) (dataType : String) (p : ℕ) : Option ℕ :=
  if dataType = "uint8" then readU8 img p else readU16LE img p

/-- Inner loop of ReadMap: read `n` consecutive raw cells from the cursor. -/
def readCells (img : List ℕ) (dataType : String) : ℕ → ℕ → Option (List ℕ)
  | _, 0 => some []
  | pos, n + 1 => do
    let v ← readVal img dataType pos
    let rest ← readCells img dataType (pos + cellWidth dataType) n
    pure (v :: rest)

/-- Outer loop of ReadMap: read `r` rows of `cols` cells, decoding each cell
through the affine transform. -/
def readRows (img : List ℕ) (dataType : String) (scale bias : ℚ) (cols : ℕ) :
    ℕ → ℕ → Option (List (List ℚ))
  | _, 0 => some []
  | pos, r + 1 => do
    let raw ← readCells img dataType pos cols
    let rest ← readRows img dataType scale bias cols (pos + cols * cellWidth dataType) r
    pure (raw.map (fun x => decodeVal x scale bias) :: rest)

/-- ReadMap: seek to the table offset (a negative offset fails the seek) and
decode rows × cols cells sequentially; a partial table is never returned. -/
def readMap (img : List ℕ) (cfg : MapConfig) : Option (List (List ℚ)) :=
  if cfg.offset < 0 then none
  else readRows img cfg.dataType cfg.scale cfg.offset2 cfg.cols cfg.offset.toNat cfg.rows

/-! ## Scanner -/

/-- `hasGoodVariance` (`pkg/scanner/scanner.go`): at least two bytes, raw
spread `max - min` of at least 10 and a nonzero maximum. -/
def hasGoodVariance (data : List ℕ) : Bool :=
  if data.length < 2 then false
  else
    let m := data.foldl min (data.headD 0)
    let M := data.foldl max (data.headD 0)
    decide (10 ≤ M - m) && decide (0 < M)

/-- A scanner candidate (`ScanResult` of the scanner variant; the raw preview
string is presentation only and omitted). -/
structure ScanResult where
  offset : ℕ
  rows : ℕ
  cols : ℕ
  dataType : String
  endianness : String
  vmin : ℚ
  vmax : ℚ
  variance : ℚ
deriving DecidableEq

/-- `calculateStats`: minimum, maximum and population variance of the decoded
values (exact rational arithmetic standing in for float64). -/
def calculateStats (values : List ℚ) : ℚ × ℚ × ℚ :=
  match values with
  | [] => (0, 0, 0)
  | v :: _ =>
    let m := values.foldl min v
    let M := values.foldl max v
    let avg := values.sum / (values.length : ℚ)
    let variance := (values.map (fun x => (x - avg) * (x - avg))).sum / (values.length : ℚ)
    (m, M, variance)

/-- `scanUint8`: decode a rows × cols window of bytes and accept it unless the
spread is below 10 or the maximum is zero. -/
def scanUint8 (data : List ℕ) (offset rows cols : ℕ) : Option ScanResult :=
  let cellCount := rows * cols
  if data.length < offset + cellCount then none
  else
    let values : List ℚ := ((data.drop offset).take cellCount).map (fun b : ℕ => (b : ℚ))
    let s := calculateStats values
    if s.2.1 - s.1 < 10 ∨ s.2.1 = 0 then none
    else some ⟨offset, rows, cols, "uint8", "N/A", s.1, s.2.1, s.2.2⟩

/-- `scanUint16`: decode a rows × cols window of two-byte values in the given
byte order and accept it unless the spread is below 100 or the maximum is
zero. -/
def scanUint16 (data : List ℕ) (offset rows cols : ℕ) (isLE : Bool) : Option ScanResult :=
  let cellCount := rows * cols
  let byteCount := cellCount * 2
  if data.length < offset + byteCount then none
  else
    let values : List ℚ := (List.range cellCount).map (fun i =>
      ((if isLE then u16LEat data (offset + i * 2) else u16BEat data (offset + i * 2)) : ℚ))
    let s := calculateStats values
    if s.2.1 - s.1 < 100 ∨ s.2.1 = 0 then none
    else some ⟨offset, rows, cols, "uint16", if isLE then "LE" else "BE", s.1, s.2.1, s.2.2⟩

/-- The offsets the scan loop visits for a window of `cells` bytes: multiples
of 0x40 strictly below `len - cells` (Go int arithmetic, hence an empty range
when `cells ≥ len`), in increasing order. -/
def scanOffsets (len cells : ℕ) : List ℕ :=
  (List.range len).filter (fun o => o % 0x40 = 0 && o + cells < len)

/-- The unsigned-8-bit pass of ScanForMaps for one shape hypothesis:
candidates accepted by `scanUint8` at the visited offsets, in scan order. -/
def scanForMapsU8 (data : List ℕ) (rows cols : ℕ) : List ScanResult :=
  (scanOffsets data.length (rows * cols)).filterMap (fun o => scanUint8 data o rows cols)

/-! ## Differ (`pkg/compare/compare.go`) -/

/-- `compareMapData`: cell-wise delta `data2 - data1` over the dimensions of
`data1`.  There is no shape check; cells missing from `data2` read 0 here
where Go would panic. -/
def compareMapData (data1 data2 : List (List ℚ)) : List (List ℚ) :=
  (List.range data1.length).map (fun i =>
    (List.range ((data1.headD []).length)).map (fun j =>
      (data2.getD i []).getD j 0 - (data1.getD i []).getD j 0))

/-- The aggregates of the statistics loop of `displayComparison`. -/
structure DiffStats where
  changedCells : ℕ
  totalDiff : ℚ
  maxDiff : ℚ
  minDiff : ℚ
deriving DecidableEq

/-- One step of the statistics loop: a cell with delta exactly 0 is skipped
entirely; both extremes start from the Go zero value 0. -/
def diffStatsStep (s : DiffStats) (d : ℚ) : DiffStats :=
  if d ≠ 0 then
    { changedCells := s.changedCells + 1
      totalDiff := s.totalDiff + d
      maxDiff := if s.maxDiff < d then d else s.maxDiff
      minDiff := if d < s.minDiff then d else s.minDiff }
  else s

/-- The statistics loop of `displayComparison` over all cells in row-major
order. -/
def diffStats (diff : List (List ℚ)) : DiffStats :=
  diff.flatten.foldl diffStatsStep ⟨0, 0, 0, 0⟩

/-- The "Average change" figure: `totalDiff / float64(changedCells)`. -/
def avgDiff (diff : List (List ℚ)) : ℚ :=
  (diffStats diff).totalDiff / ((diffStats diff).changedCells : ℚ)

/-! ## Axis labels (`exportMapToCSV`, `visualizeDifferences`) -/

/-- Column axis step: the Go integer division `8000 / cfg.Cols`. -/
def rpmStep (cols : ℕ) : ℕ := 8000 / cols

/-- Row axis step: the Go integer division `100 / cfg.Rows`. -/
def loadStep (rows : ℕ) : ℕ := 100 / rows

/-- Label of column `j` in the export header: `j * rpmStep`. -/
def colLabel (cols j : ℕ) : ℕ := j * rpmStep cols

/-- Label of row `i` in the export: `i * loadStep`. -/
def rowLabel (rows i : ℕ) : ℕ := i * loadStep rows

/-! ## Editor -/

/-- Errors of the direct cell editor. -/
inductive EditErr where
  | invalidCoordinates
  | offsetOutOfBounds
  | indexPanic
deriving DecidableEq

/-- `EditMapCellDirect` (editor package): validate the coordinates, compute
the cell offset as `offset + (row*cols + col)` — not scaled by the storage
width — bounds-check the first byte against the file length, then encode and
store (two little-endian bytes for the "uint16" tag, one byte for "uint8",
nothing for any other tag, still reporting success).  No backup is created
here.  Go has no negative-offset check and would panic on a negative index,
and the bounds check covers only the first byte, so a two-byte store whose
second byte falls past the end panics inside `PutUint16` before any byte is
written; both panics are surfaced as `indexPanic` with the state untouched. -/
def editMapCellDirect (cfg : MapConfig) (row col : ℤ) (newValue : ℚ) (fs : FS) :
    Except EditErr FS :=
  if row < 0 ∨ (cfg.rows : ℤ) ≤ row ∨ col < 0 ∨ (cfg.cols : ℤ) ≤ col then
    .error .invalidCoordinates
  else
    let cellOffset : ℤ := cfg.offset + (row * cfg.cols + col)
    if (fs.image.length : ℤ) ≤ cellOffset then .error .offsetOutOfBounds
    else if cellOffset < 0 then .error .indexPanic
    else if cfg.dataType = "uint8" then
      .ok { fs with image :=
              storeByte fs.image cellOffset.toNat (encodeRaw newValue cfg.scale cfg.offset2 1) }
    else if cfg.dataType = "uint16" then
      if (fs.image.length : ℤ) ≤ cellOffset + 1 then .error .indexPanic
      else
        .ok { fs with image :=
                storeU16LE fs.image cellOffset.toNat (encodeRaw newValue cfg.scale cfg.offset2 2) }
    else .ok fs

/-- Errors of the parameter write paths. -/
inductive WriteErr where
  | paramNotFound
  | rangeViolation
  | backupFailed
  | seekFailed
  | unsupportedDataType
  | offsetOutOfBounds
deriving DecidableEq

/-- Linear catalog lookup by name (first match). -/
def findParam (params : List ConfigParam) (name : String) : Option ConfigParam :=
  params.find? (fun p => p.name = name)

/-- Little-endian byte pair of a two-byte value. -/
def le16 (w : ℕ) : List ℕ := [w % 256, w / 256]

/-- The raw bytes a ConfigParam write stores for a physical value: truncate
the inverse affine transform toward zero, then narrow by data type ("int8"
and "int16" store the same two-complement bytes their unsigned counterparts
would); none for an unknown data type. -/
def encodeParamBytes (p : ConfigParam) (realValue : ℚ) : Option (List ℕ) :=
  let raw := (realValue - p.offset2) / p.scale
  if p.dataType = "uint8" then some [u8wrap (truncQ raw)]
  else if p.dataType = "uint16" then some (le16 (u16wrap (truncQ raw)))
  else if p.dataType = "int8" then some [u8wrap (truncQ raw)]
  else if p.dataType = "int16" then some (le16 (u16wrap (truncQ raw)))
  else none

/-- `WriteConfigParam` (`pkg/reader/config_reader.go`): look the parameter up
by name, validate the range, create a backup — aborting the write if the
backup fails — then seek and write the encoded bytes at the parameter
offset.  The result pairs the error, if any, with the file-system state
afterwards, so a failure after the backup keeps the already-written backup
while leaving the image untouched. -/
def writeConfigParamReader (params : List ConfigParam) (paramName : String)
    (realValue : ℚ) (backupOk : Bool) (fs : FS) : Option WriteErr × FS :=
  match findParam params paramName with
  | none => (some .paramNotFound, fs)
  | some param =>
    if realValue < param.minValue ∨ param.maxValue < realValue then
      (some .rangeViolation, fs)
    else if backupOk = false then (some .backupFailed, fs)
    else
      let fs1 : FS := { fs with backups := fs.image :: fs.backups }
      if param.offset < 0 then (some .seekFailed, fs1)
      else
        match encodeParamBytes param realValue with
        | none => (some .unsupportedDataType, fs1)
        | some bs =>
          (none, { fs1 with image := writeBytesFile fs1.image param.offset.toNat bs })

/-- `WriteConfigParam` (editor package, the GUI path): convert by data type
first (unknown tags rejected), read the file, bounds-check the offset and
store the bytes in the slice, then write the file back.  There is no range
validation against `[minValue, maxValue]` and no backup.  Go would panic on
a negative offset index; that case is surfaced as an error here. -/
def writeConfigParamEditor (param : ConfigParam) (value : ℚ) (fs : FS) :
    Except WriteErr FS :=
  match encodeParamBytes param value with
  | none => .error .unsupportedDataType
  | some bs =>
    if param.offset < 0 then .error .offsetOutOfBounds
    else if (fs.image.length : ℤ) ≤ param.offset then .error .offsetOutOfBounds
    else .ok { fs with image := storeBytes fs.image param.offset.toNat bs }

/-- The cell loop of `ScaleMap`: each cell byte is read back, multiplied and
narrowed through `uint8(...)`.  Indices that would fall outside the file
(where Go panics) leave the list unchanged. -/
def scaleCells (img : List ℕ) (offset : ℤ) (cells : ℕ) (m : ℚ) : List ℕ :=
  (List.range cells).foldl (fun im i =>
    let cellOffset : ℤ := offset + (i : ℤ)
    if cellOffset < 0 then im
    else im.set cellOffset.toNat (u8wrap (truncQ ((im.getD cellOffset.toNat 0 : ℚ) * m)))) img

/-- The write phase of `ScaleMap` after the interactive confirmations: reject
a multiplier outside the 0.5–2.0 band before touching anything, otherwise
create a backup — the source discards the error of the backup write
(`backup, _ := createBackup(filename)`) and proceeds regardless — then scale
every cell and persist. -/
def scaleMapCore (cfg : MapConfig) (multiplier : ℚ) (backupOk : Bool) (fs : FS) : FS :=
  if multiplier < mkRat 1 2 ∨ (2 : ℚ) < multiplier then fs
  else
    let fs1 : FS := if backupOk then { fs with backups := fs.image :: fs.backups } else fs
    { fs1 with image := scaleCells fs1.image cfg.offset (cfg.rows * cfg.cols) multiplier }

/-! ## Spec-side definitions, for comparison against the embedded code -/

/-- The cell address as the spec words it: `offset + (row*cols + col) * width`,
scaled by the storage width. -/
def specCellOffset (cfg : MapConfig) (row col : ℤ) : ℤ :=
  cfg.offset + (row * cfg.cols + col) * (cellWidth cfg.dataType : ℤ)

/-- The image the claim predicts for a two-byte cell write: the encoded bytes
stored at the width-scaled address. -/
def specWriteCellImage (cfg : MapConfig) (row col : ℤ) (v : ℚ) (img : List ℕ) : List ℕ :=
  storeU16LE img (specCellOffset cfg row col).toNat (encodeRaw v cfg.scale cfg.offset2 2)

/-! ## Helper lemmas -/

theorem truncQ_of_nonneg (q : ℚ) (h : 0 ≤ q) : truncQ q = ⌊q⌋ := by
  rw [Rat.floor_def, truncQ, Int.tdiv_eq_ediv (Rat.num_nonneg.2 h) (by positivity)]

theorem encodeRaw_of_in_range (v scale bias : ℚ) (width : ℕ)
    (h0 : 0 ≤ (v - bias) / scale) (h1 : (v - bias) / scale ≤ 2 ^ (8 * width) - 1) :
    (encodeRaw v scale bias width : ℤ) = ⌊(v - bias) / scale⌋ := by
  set q : ℚ := (v - bias) / scale with hq
  have hfl0 : (0 : ℤ) ≤ ⌊q⌋ := Int.floor_nonneg.2 h0
  have hflub : ⌊q⌋ < 2 ^ (8 * width) := by
    have : (⌊q⌋ : ℚ) ≤ 2 ^ (8 * width) - 1 := le_trans (Int.floor_le q) h1
    have h2 : (⌊q⌋ : ℚ) < 2 ^ (8 * width) := lt_of_le_of_lt this (by linarith)
    exact_mod_cast (by push_cast at h2 ⊢; exact h2 : (⌊q⌋ : ℚ) < ((2 ^ (8 * width) : ℤ) : ℚ))
  rw [encodeRaw, ← hq, truncQ_of_nonneg q h0, Int.emod_eq_of_lt hfl0 hflub]
  exact Int.toNat_of_nonneg hfl0

theorem getD_map_range {α : Type} (n : ℕ) (f : ℕ → α) (d : α) (i : ℕ) (h : i < n) :
    ((List.range n).map f).getD i d = f i := by
  simp [List.getD_eq_getElem?_getD, List.getElem?_range h]

/-! ## Claims -/

/-- C2: for every representable physical value within the natural raw range of
a width/scale/bias combination, decoding the encoding lands within one
quantization step (one unit of scale) of the value; in particular with
width one, scale 1/25 (= 0.04) and bias 0, raw 100 decodes to physical 4 and
physical 4 encodes to raw 100. -/
theorem codec_roundtrip_within_one_step (w : ℕ) (scale bias v : ℚ)
    (hs : 0 < scale) (h0 : 0 ≤ (v - bias) / scale)
    (h1 : (v - bias) / scale ≤ 2 ^ (8 * w) - 1) :
    |decodeVal (encodeRaw v scale bias w) scale bias - v| ≤ scale ∧
      decodeVal 100 (mkRat 1 25) 0 = 4 ∧ encodeRaw 4 (mkRat 1 25) 0 1 = 100 := by
  refine ⟨?_, by with_unfolding_all decide, by with_unfolding_all decide⟩
  set q : ℚ := (v - bias) / scale with hq
  have hraw : (encodeRaw v scale bias w : ℚ) = (⌊q⌋ : ℚ) := by
    exact_mod_cast congrArg (fun z : ℤ => (z : ℚ)) (encodeRaw_of_in_range v scale bias w h0 h1)
  have hv : q * scale = v - bias := div_mul_cancel₀ (v - bias) (ne_of_gt hs)
  have hfl_le : (⌊q⌋ : ℚ) ≤ q := Int.floor_le q
  have hfl_gt : q - 1 < (⌊q⌋ : ℚ) := Int.sub_one_lt_floor q
  rw [decodeVal, hraw]
  have hexpand : (⌊q⌋ : ℚ) * scale + bias - v = ((⌊q⌋ : ℚ) - q) * scale := by
    rw [sub_mul, hv]; ring
  rw [hexpand, abs_mul, abs_of_pos hs]
  have h2 : |(⌊q⌋ : ℚ) - q| ≤ 1 := by
    rw [abs_le]
    constructor <;> linarith
  nlinarith [abs_nonneg ((⌊q⌋ : ℚ) - q)]

/-- Witness for C2 at width one, scale 1/25, bias 0, physical value 4. -/
theorem codec_roundtrip_within_one_step_witness :
    (0 < mkRat 1 25 ∧ 0 ≤ ((4 : ℚ) - 0) / mkRat 1 25 ∧
        ((4 : ℚ) - 0) / mkRat 1 25 ≤ 2 ^ (8 * 1) - 1) ∧
      |decodeVal (encodeRaw 4 (mkRat 1 25) 0 1) (mkRat 1 25) 0 - 4| ≤ mkRat 1 25 ∧
        decodeVal 100 (mkRat 1 25) 0 = 4 ∧ encodeRaw 4 (mkRat 1 25) 0 1 = 100 :=
  ⟨⟨by with_unfolding_all decide, by with_unfolding_all decide,
      by with_unfolding_all decide⟩,
    codec_roundtrip_within_one_step 1 (mkRat 1 25) 0 4
      (by with_unfolding_all decide) (by with_unfolding_all decide)
      (by with_unfolding_all decide)⟩

/-- C8 counterexample: with 8 rows the exported label of row 2 is 24 (Go
integer division 100/8 = 12), while the exact rational mapping 2*100/8 is
25; the claim as stated fails at rows = 8, i = 2. -/
theorem axis_label_int_division_counterexample :
    rowLabel 8 2 = 24 ∧ (2 * 100 / 8 : ℚ) = 25 ∧
      ((rowLabel 8 2 : ℚ) ≠ 2 * 100 / 8) :=
  ⟨by decide, by with_unfolding_all decide, by with_unfolding_all decide⟩

/-- C8 amended: the axis labels are `j * (8000 / cols)` and `i * (100 / rows)`
with Go integer (floor) division of the step; they agree with the exact
rational mappings `j * 8000/cols` and `i * 100/rows` exactly when `cols`
divides 8000 and `rows` divides 100. -/
theorem axis_labels_exact_iff_divisible (rows cols i j : ℕ)
    (hr : rows ∣ 100) (hc : cols ∣ 8000) :
    (rowLabel rows i : ℚ) = i * 100 / rows ∧
      (colLabel cols j : ℚ) = j * 8000 / cols := by
  have hr0 : rows ≠ 0 := by rintro rfl; exact absurd (zero_dvd_iff.mp hr) (by decide)
  have hc0 : cols ≠ 0 := by rintro rfl; exact absurd (zero_dvd_iff.mp hc) (by decide)
  constructor
  · rw [rowLabel, loadStep, Nat.cast_mul,
      Nat.cast_div hr (Nat.cast_ne_zero.2 hr0 : ((rows : ℚ) ≠ 0)), mul_div_assoc]
    norm_num
  · rw [colLabel, rpmStep, Nat.cast_mul,
      Nat.cast_div hc (Nat.cast_ne_zero.2 hc0 : ((cols : ℚ) ≠ 0)), mul_div_assoc]
    norm_num

/-- Witness for the amended C8 at rows = 10, cols = 16, i = 3, j = 2. -/
theorem axis_labels_exact_iff_divisible_witness :
    ((10 : ℕ) ∣ 100 ∧ (16 : ℕ) ∣ 8000) ∧
      (rowLabel 10 3 : ℚ) = 3 * 100 / 10 ∧ (colLabel 16 2 : ℚ) = 2 * 8000 / 16 :=
  ⟨⟨by decide, by decide⟩,
    axis_labels_exact_iff_divisible 10 16 3 2 (by decide) (by decide)⟩

/-- C7 counterexample: compareMapData applied to a 1×2 table and a 2×2 table
returns a delta table (over the first table dimensions) instead of a
shape-mismatch error — the differ has no error outcome at all. -/
theorem compareMapData_shape_mismatch_counterexample :
    compareMapData [[1, 2]] [[3, 4], [5, 6]] = [[2, 2]] ∧
      ([[1, 2]] : List (List ℚ)).length ≠ ([[3, 4], [5, 6]] : List (List ℚ)).length :=
  ⟨by with_unfolding_all decide, by decide⟩
/-- C7 amended: the differ never checks shapes and has no error outcome; it
always computes the cell-wise delta `data2 - data1` over the dimensions of
its first argument.  On identically-shaped rectangular tables this yields the
delta table of the claim, antisymmetric under swapping the arguments. -/
theorem compareMapData_no_shape_check (A B : List (List ℚ)) (cols : ℕ)
    (hA : ∀ r ∈ A, r.length = cols) (hB : ∀ r ∈ B, r.length = cols)
    (hlen : A.length = B.length) :
    (compareMapData A B).length = A.length ∧
      (∀ i j : ℕ, i < A.length → j < cols →
        ((compareMapData A B).getD i []).getD j 0 =
          (B.getD i []).getD j 0 - (A.getD i []).getD j 0) ∧
      compareMapData A B = (compareMapData B A).map (fun r => r.map (fun x => -x)) := by
  have canon : ∀ X Y : List (List ℚ), (∀ r ∈ X, r.length = cols) →
      compareMapData X Y = (List.range X.length).map (fun i =>
        (List.range cols).map (fun j =>
          (Y.getD i []).getD j 0 - (X.getD i []).getD j 0)) := by
    intro X Y hX
    cases X with
    | nil => simp [compareMapData]
    | cons r t =>
      have hr : r.length = cols := hX r (by simp)
      simp [compareMapData, hr]
  refine ⟨by simp [compareMapData], ?_, ?_⟩
  · intro i j hi hj
    rw [canon A B hA, getD_map_range _ _ _ _ hi, getD_map_range _ _ _ _ hj]
  · rw [canon A B hA, canon B A hB, List.map_map, hlen]
    refine congrArg (fun f => List.map f (List.range B.length)) ?_
    funext i
    rw [Function.comp_apply, List.map_map]
    refine congrArg (fun f => List.map f (List.range cols)) ?_
    funext j
    simp

/-- Witness for the amended C7 on the 1×2 tables [[1,2]] and [[0,5]]. -/
theorem compareMapData_no_shape_check_witness :
    (([[1, 2]] : List (List ℚ)).length = ([[0, 5]] : List (List ℚ)).length) ∧
      ((compareMapData [[1, 2]] [[0, 5]]).getD 0 []).getD 1 0 =
        (([[0, 5]] : List (List ℚ)).getD 0 []).getD 1 0 -
          (([[1, 2]] : List (List ℚ)).getD 0 []).getD 1 0 ∧
      compareMapData [[1, 2]] [[0, 5]] =
        (compareMapData [[0, 5]] [[1, 2]]).map (fun r => r.map (fun x => -x)) := by
  have h := compareMapData_no_shape_check [[1, 2]] [[0, 5]] 2
    (by with_unfolding_all decide) (by with_unfolding_all decide) (by decide)
  exact ⟨by decide, h.2.1 0 1 (by decide) (by decide), h.2.2⟩
theorem ite_lt_max (a d : ℚ) : (if a < d then d else a) = max a d := by
  rcases le_or_lt d a with h | h
  · rw [if_neg (not_lt.2 h), max_eq_left h]
  · rw [if_pos h, max_eq_right h.le]

theorem ite_lt_min (a d : ℚ) : (if d < a then d else a) = min a d := by
  rcases le_or_lt a d with h | h
  · rw [if_neg (not_lt.2 h), min_eq_left h]
  · rw [if_pos h, min_eq_right h.le]

theorem foldl_max_shift (l : List ℚ) : ∀ a b : ℚ,
    l.foldl max (max a b) = max a (l.foldl max b) := by
  induction l with
  | nil => intro a b; rfl
  | cons c t ih =>
    intro a b
    rw [List.foldl_cons, List.foldl_cons, max_assoc, ih]

theorem foldl_min_shift (l : List ℚ) : ∀ a b : ℚ,
    l.foldl min (min a b) = min a (l.foldl min b) := by
  induction l with
  | nil => intro a b; rfl
  | cons c t ih =>
    intro a b
    rw [List.foldl_cons, List.foldl_cons, min_assoc, ih]

theorem diffStats_foldl (l : List ℚ) : ∀ s : DiffStats,
    (l.foldl diffStatsStep s).changedCells
        = s.changedCells + (l.filter (fun d => d ≠ 0)).length ∧
      (l.foldl diffStatsStep s).totalDiff
        = s.totalDiff + (l.filter (fun d => d ≠ 0)).sum ∧
      (l.foldl diffStatsStep s).maxDiff
        = (l.filter (fun d => d ≠ 0)).foldl max s.maxDiff ∧
      (l.foldl diffStatsStep s).minDiff
        = (l.filter (fun d => d ≠ 0)).foldl min s.minDiff := by
  induction l with
  | nil => intro s; simp
  | cons d t ih =>
    intro s
    by_cases hd : d = 0
    · have hstep : diffStatsStep s d = s := by rw [diffStatsStep, if_neg (by simp [hd])]
      simp only [List.foldl_cons, hstep, List.filter_cons, hd]
      simpa using ih s
    · have hstep : diffStatsStep s d =
          ⟨s.changedCells + 1, s.totalDiff + d, max s.maxDiff d, min s.minDiff d⟩ := by
        rw [diffStatsStep, if_pos hd, ite_lt_max, ite_lt_min]
      have hfil : (d :: t).filter (fun x => x ≠ 0) = d :: t.filter (fun x => x ≠ 0) := by
        simp [List.filter_cons, hd]
      rw [List.foldl_cons, hstep, hfil]
      obtain ⟨h1, h2, h3, h4⟩ := ih ⟨s.changedCells + 1, s.totalDiff + d,
        max s.maxDiff d, min s.minDiff d⟩
      refine ⟨?_, ?_, ?_, ?_⟩
      · rw [h1]; simp; omega
      · rw [h2]; simp; ring
      · rw [h3, List.foldl_cons]
      · rw [h4, List.foldl_cons]

theorem foldl_max_via_max? (l : List ℚ) (a : ℚ) (hl : l ≠ []) :
    ∃ M, l.max? = some M ∧ l.foldl max a = max a M := by
  match l with
  | [] => exact absurd rfl hl
  | b :: t =>
    refine ⟨t.foldl max b, List.max?_cons', ?_⟩
    rw [List.foldl_cons, foldl_max_shift]

theorem foldl_min_via_min? (l : List ℚ) (a : ℚ) (hl : l ≠ []) :
    ∃ m, l.min? = some m ∧ l.foldl min a = min a m := by
  match l with
  | [] => exact absurd rfl hl
  | b :: t =>
    refine ⟨t.foldl min b, List.min?_cons', ?_⟩
    rw [List.foldl_cons, foldl_min_shift]

/-- C6 counterexample: on the delta table [[-2]] every changed cell is
negative; the claim predicts maxIncrease = -2 (the largest changed delta),
but the statistics loop leaves maxDiff at its initial value 0. -/
theorem diffStats_all_negative_counterexample :
    diffStats [[-2]] = ⟨1, -2, 0, -2⟩ ∧
      (([[-2]] : List (List ℚ)).flatten.filter (fun d => d ≠ 0)).max? = some (-2) ∧
      (diffStats [[-2]]).maxDiff ≠ -2 := by
  refine ⟨?_, ?_, ?_⟩ <;> with_unfolding_all decide

/-- C6 amended: the summary skips zero deltas from the count, the mean and
both extremes, and the mean is the mean over the changed cells; but the
extremes are clamped at the initial Go zero value: maxIncrease is
`max 0 M` and maxDecrease is `min 0 m` for the actual maximum M and minimum
m over the changed cells, so an all-negative change set reports maxIncrease
0 rather than its largest changed delta. -/
theorem diffStats_changed_cells_only (diff : List (List ℚ))
    (h : diff.flatten.filter (fun d => d ≠ 0) ≠ []) :
    ∃ m M : ℚ,
      (diff.flatten.filter (fun d => d ≠ 0)).min? = some m ∧
        (diff.flatten.filter (fun d => d ≠ 0)).max? = some M ∧
        (diffStats diff).changedCells = (diff.flatten.filter (fun d => d ≠ 0)).length ∧
        (diffStats diff).totalDiff = (diff.flatten.filter (fun d => d ≠ 0)).sum ∧
        avgDiff diff = (diff.flatten.filter (fun d => d ≠ 0)).sum /
          ((diff.flatten.filter (fun d => d ≠ 0)).length : ℚ) ∧
        (diffStats diff).maxDiff = max 0 M ∧
        (diffStats diff).minDiff = min 0 m := by
  obtain ⟨h1, h2, h3, h4⟩ := diffStats_foldl diff.flatten ⟨0, 0, 0, 0⟩
  obtain ⟨M, hM, hMf⟩ := foldl_max_via_max? _ (0 : ℚ) h
  obtain ⟨m, hm, hmf⟩ := foldl_min_via_min? _ (0 : ℚ) h
  refine ⟨m, M, hm, hM, ?_, ?_, ?_, ?_, ?_⟩
  · rw [diffStats, h1]; simp
  · rw [diffStats, h2]; simp
  · rw [avgDiff, diffStats, h1, h2]; simp
  · rw [diffStats, h3]; exact hMf
  · rw [diffStats, h4]; exact hmf

/-- Witness for the amended C6 on the delta table [[3, 0], [-1, 0]]. -/
theorem diffStats_changed_cells_only_witness :
    (([[3, 0], [-1, 0]] : List (List ℚ)).flatten.filter (fun d => d ≠ 0) ≠ []) ∧
      ∃ m M : ℚ,
        (([[3, 0], [-1, 0]] : List (List ℚ)).flatten.filter (fun d => d ≠ 0)).min? = some m ∧
          (([[3, 0], [-1, 0]] : List (List ℚ)).flatten.filter (fun d => d ≠ 0)).max? = some M ∧
          (diffStats [[3, 0], [-1, 0]]).changedCells =
            (([[3, 0], [-1, 0]] : List (List ℚ)).flatten.filter (fun d => d ≠ 0)).length ∧
          (diffStats [[3, 0], [-1, 0]]).totalDiff =
            (([[3, 0], [-1, 0]] : List (List ℚ)).flatten.filter (fun d => d ≠ 0)).sum ∧
          avgDiff [[3, 0], [-1, 0]] =
            (([[3, 0], [-1, 0]] : List (List ℚ)).flatten.filter (fun d => d ≠ 0)).sum /
              ((([[3, 0], [-1, 0]] : List (List ℚ)).flatten.filter (fun d => d ≠ 0)).length : ℚ) ∧
          (diffStats [[3, 0], [-1, 0]]).maxDiff = max 0 M ∧
          (diffStats [[3, 0], [-1, 0]]).minDiff = min 0 m :=
  ⟨by with_unfolding_all decide,
    diffStats_changed_cells_only [[3, 0], [-1, 0]] (by with_unfolding_all decide)⟩
theorem calculateStats_fst (v : ℚ) (t : List ℚ) :
    (calculateStats (v :: t)).1 = (v :: t).foldl min v := by
  simp [calculateStats]

theorem calculateStats_max (v : ℚ) (t : List ℚ) :
    (calculateStats (v :: t)).2.1 = (v :: t).foldl max v := by
  simp [calculateStats]

theorem min?_eq_stats (v : ℚ) (t : List ℚ) :
    (v :: t).min? = some (calculateStats (v :: t)).1 := by
  rw [List.min?_cons', calculateStats_fst, List.foldl_cons, min_self]

theorem max?_eq_stats (v : ℚ) (t : List ℚ) :
    (v :: t).max? = some (calculateStats (v :: t)).2.1 := by
  rw [List.max?_cons', calculateStats_max, List.foldl_cons, max_self]

theorem accept_stats_iff (values : List ℚ) (thr : ℚ) (hthr : 0 < thr)
    (hnn : ∀ x ∈ values, 0 ≤ x) :
    (¬((calculateStats values).2.1 - (calculateStats values).1 < thr ∨
        (calculateStats values).2.1 = 0)) ↔
      ∃ m M : ℚ, values.min? = some m ∧ values.max? = some M ∧ thr ≤ M - m ∧ 0 < M := by
  match values with
  | [] =>
    constructor
    · intro h; exact absurd (Or.inl (by simpa [calculateStats] using hthr)) h
    · rintro ⟨m, M, hm, _⟩; simp [List.min?] at hm
  | v :: t =>
    have hMmem : (calculateStats (v :: t)).2.1 ∈ v :: t := by
      have := List.max?_mem (fun a b : ℚ => max_choice a b) (max?_eq_stats v t)
      exact this
    have hM0 : 0 ≤ (calculateStats (v :: t)).2.1 := hnn _ hMmem
    constructor
    · intro h
      push_neg at h
      exact ⟨_, _, min?_eq_stats v t, max?_eq_stats v t, h.1,
        lt_of_le_of_ne hM0 (Ne.symm h.2)⟩
    · rintro ⟨m, M, hm, hM, hge, hpos⟩
      rw [min?_eq_stats v t] at hm
      rw [max?_eq_stats v t] at hM
      obtain rfl := Option.some.inj hm
      obtain rfl := Option.some.inj hM
      push_neg
      exact ⟨hge, ne_of_gt hpos⟩

theorem hasGoodVariance_iff (d : List ℕ) :
    hasGoodVariance d = true ↔
      2 ≤ d.length ∧ ∃ m M : ℕ, d.min? = some m ∧ d.max? = some M ∧
        10 ≤ M - m ∧ 0 < M := by
  match d with
  | [] => simp [hasGoodVariance]
  | [a] => simp [hasGoodVariance]
  | a :: b :: t =>
    have hm : (a :: b :: t).foldl min ((a :: b :: t).headD 0) = (b :: t).foldl min a := by
      simp [List.foldl_cons, min_self]
    have hM : (a :: b :: t).foldl max ((a :: b :: t).headD 0) = (b :: t).foldl max a := by
      simp [List.foldl_cons, max_self]
    rw [hasGoodVariance, if_neg (by simp)]
    simp only [hm, hM, Bool.and_eq_true, decide_eq_true_eq]
    constructor
    · rintro ⟨h10, h0⟩
      exact ⟨by simp, (b :: t).foldl min a, (b :: t).foldl max a,
        List.min?_cons', List.max?_cons', h10, h0⟩
    · rintro ⟨-, m, M, hmin, hmax, h10, h0⟩
      rw [List.min?_cons'] at hmin
      rw [List.max?_cons'] at hmax
      obtain rfl := Option.some.inj hmin
      obtain rfl := Option.some.inj hmax
      exact ⟨h10, h0⟩

theorem scanUint8_isSome_iff (data : List ℕ) (off rows cols : ℕ) :
    (scanUint8 data off rows cols).isSome = true ↔
      off + rows * cols ≤ data.length ∧
        ∃ m M : ℚ,
          (((data.drop off).take (rows * cols)).map (fun b : ℕ => (b : ℚ))).min? = some m ∧
          (((data.drop off).take (rows * cols)).map (fun b : ℕ => (b : ℚ))).max? = some M ∧
          10 ≤ M - m ∧ 0 < M := by
  by_cases hb : data.length < off + rows * cols
  · rw [scanUint8, if_pos hb]
    simp only [Option.isSome_none, Bool.false_eq_true, false_iff, not_and]
    intro h; omega
  · rw [scanUint8, if_neg hb]
    have hnn : ∀ x ∈ ((data.drop off).take (rows * cols)).map (fun b : ℕ => (b : ℚ)), 0 ≤ x := by
      intro x hx
      obtain ⟨b, -, rfl⟩ := List.mem_map.1 hx
      exact Nat.cast_nonneg b
    constructor
    · intro h
      have hcond : ¬((calculateStats (((data.drop off).take (rows * cols)).map
            (fun b : ℕ => (b : ℚ)))).2.1 -
          (calculateStats (((data.drop off).take (rows * cols)).map (fun b : ℕ => (b : ℚ)))).1 < 10 ∨
          (calculateStats (((data.drop off).take (rows * cols)).map
            (fun b : ℕ => (b : ℚ)))).2.1 = 0) := by
        intro hcond
        rw [if_pos hcond] at h
        exact absurd h (by simp)
      exact ⟨by omega, (accept_stats_iff _ 10 (by norm_num) hnn).1 hcond⟩
    · rintro ⟨-, hex⟩
      rw [if_neg ((accept_stats_iff _ 10 (by norm_num) hnn).2 hex)]
      rfl

theorem scanUint16_isSome_iff (data : List ℕ) (off rows cols : ℕ) (isLE : Bool) :
    (scanUint16 data off rows cols isLE).isSome = true ↔
      off + rows * cols * 2 ≤ data.length ∧
        ∃ m M : ℚ,
          ((List.range (rows * cols)).map (fun i =>
            ((if isLE then u16LEat data (off + i * 2) else u16BEat data (off + i * 2)) : ℚ))).min?
              = some m ∧
          ((List.range (rows * cols)).map (fun i =>
            ((if isLE then u16LEat data (off + i * 2) else u16BEat data (off + i * 2)) : ℚ))).max?
              = some M ∧
          100 ≤ M - m ∧ 0 < M := by
  by_cases hb : data.length < off + rows * cols * 2
  · rw [scanUint16, if_pos hb]
    simp only [Option.isSome_none, Bool.false_eq_true, false_iff, not_and]
    intro h; omega
  · rw [scanUint16, if_neg hb]
    have hnn : ∀ x ∈ (List.range (rows * cols)).map (fun i =>
        ((if isLE then u16LEat data (off + i * 2) else u16BEat data (off + i * 2)) : ℚ)), 0 ≤ x := by
      intro x hx
      obtain ⟨b, -, rfl⟩ := List.mem_map.1 hx
      cases isLE <;> simp
    constructor
    · intro h
      have hcond : ¬((calculateStats ((List.range (rows * cols)).map (fun i =>
            ((if isLE then u16LEat data (off + i * 2) else u16BEat data (off + i * 2)) : ℚ)))).2.1 -
          (calculateStats ((List.range (rows * cols)).map (fun i =>
            ((if isLE then u16LEat data (off + i * 2) else u16BEat data (off + i * 2)) : ℚ)))).1
              < 100 ∨
          (calculateStats ((List.range (rows * cols)).map (fun i =>
            ((if isLE then u16LEat data (off + i * 2) else u16BEat data (off + i * 2)) : ℚ)))).2.1
              = 0) := by
        intro hcond
        rw [if_pos hcond] at h
        exact absurd h (by simp)
      exact ⟨by omega, (accept_stats_iff _ 100 (by norm_num) hnn).1 hcond⟩
    · rintro ⟨-, hex⟩
      rw [if_neg ((accept_stats_iff _ 100 (by norm_num) hnn).2 hex)]
      rfl

set_option maxRecDepth 100000 in
/-- C5 counterexample: an 8×8 byte window whose decoded value range equals
the threshold exactly (max 10, min 0, spread 10) is accepted by the scanner
— the test is `(max - min) >= 10`, not a strict inequality — so the claim
that such a window is not reported fails. -/
theorem scan_threshold_exact_spread_counterexample :
    hasGoodVariance (0 :: List.replicate 63 10) = true ∧
      (scanUint8 (0 :: List.replicate 63 10) 0 8 8).isSome = true ∧
      (0 :: List.replicate 63 10).foldl max ((0 :: List.replicate 63 10).headD 0) -
          (0 :: List.replicate 63 10).foldl min ((0 :: List.replicate 63 10).headD 0) = 10 := by
  refine ⟨by decide, ?_, by decide⟩
  with_unfolding_all decide

/-- C5 amended: a window is accepted iff its decoded spread `max - min` is at
least the width-dependent threshold (10 for 8-bit, 100 for 16-bit, inclusive
rather than strict) and its maximum is nonzero; consequently a 15-unit-range
window with nonzero maximum is reported and an all-zero window never is. -/
theorem scanner_acceptance_characterization :
    (∀ d : List ℕ, hasGoodVariance d = true ↔
        2 ≤ d.length ∧ ∃ m M : ℕ, d.min? = some m ∧ d.max? = some M ∧
          10 ≤ M - m ∧ 0 < M) ∧
      (∀ (data : List ℕ) (off rows cols : ℕ),
        (scanUint8 data off rows cols).isSome = true ↔
          off + rows * cols ≤ data.length ∧
            ∃ m M : ℚ,
              (((data.drop off).take (rows * cols)).map (fun b : ℕ => (b : ℚ))).min? = some m ∧
              (((data.drop off).take (rows * cols)).map (fun b : ℕ => (b : ℚ))).max? = some M ∧
              10 ≤ M - m ∧ 0 < M) ∧
      (∀ (data : List ℕ) (off rows cols : ℕ) (isLE : Bool),
        (scanUint16 data off rows cols isLE).isSome = true ↔
          off + rows * cols * 2 ≤ data.length ∧
            ∃ m M : ℚ,
              ((List.range (rows * cols)).map (fun i =>
                ((if isLE then u16LEat data (off + i * 2)
                  else u16BEat data (off + i * 2)) : ℚ))).min? = some m ∧
              ((List.range (rows * cols)).map (fun i =>
                ((if isLE then u16LEat data (off + i * 2)
                  else u16BEat data (off + i * 2)) : ℚ))).max? = some M ∧
              100 ≤ M - m ∧ 0 < M) :=
  ⟨hasGoodVariance_iff, scanUint8_isSome_iff, scanUint16_isSome_iff⟩

/-- Witness for the amended C5: a two-byte window of spread exactly 10 and
nonzero maximum passes the variance test. -/
theorem scanner_acceptance_characterization_witness :
    hasGoodVariance [0, 10] = true :=
  (scanner_acceptance_characterization.1 [0, 10]).mpr
    ⟨by decide, 0, 10, by decide, by decide, by decide, by decide⟩
set_option maxRecDepth 100000 in
/-- C3 counterexample: the editor-package WriteConfigParam performs no range
validation at all — a value one unit below the parameter minimum is encoded
and written, the call succeeds, and the image changes. -/
theorem writeConfigParamEditor_no_range_check_counterexample :
    writeConfigParamEditor ⟨"P", 0, "uint8", 1, 0, "raw", "", 10, 20⟩ 9 ⟨[0], []⟩ =
        .ok ⟨[9], []⟩ ∧
      (9 : ℚ) < 10 ∧ ([9] : List ℕ) ≠ [0] := by
  refine ⟨?_, by with_unfolding_all decide, by decide⟩
  with_unfolding_all decide

/-- C3 amended: the reader-package writeConfigParam rejects a proposed value
strictly below min or strictly above max with a range-violation error before
reading or touching any byte, leaving the file-system state (image and
backups) unchanged; the editor-package WriteConfigParam has no range check
and writes the wrapped raw value. -/
theorem writeConfigParamReader_range_rejection (params : List ConfigParam)
    (name : String) (v : ℚ) (ok : Bool) (fs : FS) (p : ConfigParam)
    (hfind : findParam params name = some p)
    (hout : v < p.minValue ∨ p.maxValue < v) :
    writeConfigParamReader params name v ok fs = (some .rangeViolation, fs) := by
  rw [writeConfigParamReader, hfind]
  exact if_pos hout

/-- Witness for the amended C3: writing 5999 RPM (one unit below the 6000 RPM
minimum) to the Rev Limiter parameter of the catalog is rejected with the
state unchanged. -/
theorem writeConfigParamReader_range_rejection_witness :
    (findParam ConfigParams "Rev Limiter" =
        some ⟨"Rev Limiter", 0x7000, "uint8", mkRat 8537 100, 0, "RPM",
          "Maximum engine RPM limit", 6000, 7500⟩ ∧
      (5999 : ℚ) < 6000) ∧
      writeConfigParamReader ConfigParams "Rev Limiter" 5999 true ⟨[0], []⟩ =
        (some .rangeViolation, ⟨[0], []⟩) :=
  ⟨⟨by decide, by decide⟩,
    writeConfigParamReader_range_rejection ConfigParams "Rev Limiter" 5999 true ⟨[0], []⟩
      ⟨"Rev Limiter", 0x7000, "uint8", mkRat 8537 100, 0, "RPM",
        "Maximum engine RPM limit", 6000, 7500⟩
      (by decide) (Or.inl (by decide))⟩

/-- C4 counterexample: for a two-byte-wide descriptor the code writes cell
(0,1) at `offset + (row*cols + col)` = byte 1, while the claim's
width-scaled address is `offset + (row*cols + col)*2` = byte 2; on a
four-byte image the resulting contents differ. -/
theorem editMapCellDirect_width_scaling_counterexample :
    editMapCellDirect ⟨"T", 0, 1, 2, "uint16", 1, 0, "u", ""⟩ 0 1 773 ⟨[0, 0, 0, 0], []⟩ =
        .ok ⟨[0, 5, 3, 0], []⟩ ∧
      specWriteCellImage ⟨"T", 0, 1, 2, "uint16", 1, 0, "u", ""⟩ 0 1 773 [0, 0, 0, 0] =
        [0, 0, 5, 3] ∧
      ([0, 5, 3, 0] : List ℕ) ≠ [0, 0, 5, 3] := by
  refine ⟨?_, ?_, by decide⟩ <;> with_unfolding_all decide

/-- C4 amended: writeCell validates 0 ≤ row < rows and 0 ≤ col < cols and
rejects out-of-range coordinates with an error before touching any byte; for
valid coordinates it writes the encoded raw bytes at image position
`offset + (row*cols + col)` — the cell index is NOT scaled by the storage
width, so a two-byte cell (row, col) starts at offset + (row*cols+col), not
offset + (row*cols+col)*2.  The bounds check covers only the first byte, so
a two-byte write whose second byte falls past the end of the image panics
(surfaced here as an error with no byte written) rather than storing
anything. -/
theorem editMapCellDirect_unscaled_address (cfg : MapConfig) (row col : ℤ) (v : ℚ) (fs : FS) :
    (¬(0 ≤ row ∧ row < (cfg.rows : ℤ) ∧ 0 ≤ col ∧ col < (cfg.cols : ℤ)) →
        editMapCellDirect cfg row col v fs = .error .invalidCoordinates) ∧
      (0 ≤ row → row < (cfg.rows : ℤ) → 0 ≤ col → col < (cfg.cols : ℤ) → 0 ≤ cfg.offset →
        cfg.offset + (row * cfg.cols + col) < (fs.image.length : ℤ) →
        (cfg.dataType = "uint8" →
          editMapCellDirect cfg row col v fs = .ok
            ⟨storeByte fs.image (cfg.offset.toNat + (row.toNat * cfg.cols + col.toNat))
                (encodeRaw v cfg.scale cfg.offset2 1), fs.backups⟩) ∧
        (cfg.dataType = "uint16" →
          (cfg.offset + (row * cfg.cols + col) + 1 < (fs.image.length : ℤ) →
            editMapCellDirect cfg row col v fs = .ok
              ⟨storeU16LE fs.image (cfg.offset.toNat + (row.toNat * cfg.cols + col.toNat))
                  (encodeRaw v cfg.scale cfg.offset2 2), fs.backups⟩) ∧
          ((fs.image.length : ℤ) ≤ cfg.offset + (row * cfg.cols + col) + 1 →
            editMapCellDirect cfg row col v fs = .error .indexPanic))) := by
  constructor
  · intro hbad
    have hguard : row < 0 ∨ (cfg.rows : ℤ) ≤ row ∨ col < 0 ∨ (cfg.cols : ℤ) ≤ col := by
      omega
    simp only [editMapCellDirect]
    rw [if_pos hguard]
  · intro h1 h2 h3 h4 h5 h6
    have hguard : ¬(row < 0 ∨ (cfg.rows : ℤ) ≤ row ∨ col < 0 ∨ (cfg.cols : ℤ) ≤ col) := by
      omega
    have hcell0 : (0 : ℤ) ≤ cfg.offset + (row * cfg.cols + col) :=
      add_nonneg h5 (add_nonneg (mul_nonneg h1 (Int.natCast_nonneg _)) h3)
    have haddr : (cfg.offset + (row * (cfg.cols : ℤ) + col)).toNat
        = cfg.offset.toNat + (row.toNat * cfg.cols + col.toNat) := by
      have hcast : cfg.offset + (row * (cfg.cols : ℤ) + col) =
          ((cfg.offset.toNat + (row.toNat * cfg.cols + col.toNat) : ℕ) : ℤ) := by
        push_cast [Int.toNat_of_nonneg h1, Int.toNat_of_nonneg h3, Int.toNat_of_nonneg h5]
        ring
      rw [hcast, Int.toNat_natCast]
    constructor
    · intro hdt
      simp only [editMapCellDirect]
      rw [if_neg hguard, if_neg (not_le.2 h6), if_neg (not_lt.2 hcell0), if_pos hdt, haddr]
    · intro hdt
      constructor
      · intro h7
        simp only [editMapCellDirect]
        rw [if_neg hguard, if_neg (not_le.2 h6), if_neg (not_lt.2 hcell0),
          if_neg (show ¬(cfg.dataType = "uint8") by rw [hdt]; decide), if_pos hdt,
          if_neg (not_le.2 h7), haddr]
      · intro h7
        simp only [editMapCellDirect]
        rw [if_neg hguard, if_neg (not_le.2 h6), if_neg (not_lt.2 hcell0),
          if_neg (show ¬(cfg.dataType = "uint8") by rw [hdt]; decide), if_pos hdt,
          if_pos h7]

/-- Witness for the amended C4: an in-range single-byte cell write of a 1×2
table lands at byte offset 1 = 0 + (0*2 + 1). -/
theorem editMapCellDirect_unscaled_address_witness :
    ((0 : ℤ) ≤ 0 ∧ (0 : ℤ) < 1 ∧ (0 : ℤ) ≤ 1 ∧ (1 : ℤ) < 2) ∧
      editMapCellDirect ⟨"T", 0, 1, 2, "uint8", 1, 0, "u", ""⟩ 0 1 5 ⟨[7, 7], []⟩ =
        .ok ⟨[7, 5], []⟩ := by
  refine ⟨by decide, ?_⟩
  have h := (editMapCellDirect_unscaled_address ⟨"T", 0, 1, 2, "uint8", 1, 0, "u", ""⟩
      0 1 5 ⟨[7, 7], []⟩).2 (by decide) (by decide) (by decide) (by decide)
      (by decide) (by decide)
  rw [h.1 rfl]
  with_unfolding_all decide


/-- C1 counterexample: the direct cell-edit path succeeds and mutates the
image while creating no backup at all (its backup list stays empty), and the
ScaleMap path proceeds with the mutation even when the backup write fails —
both contradict the claimed mandatory backup-before-write invariant. -/
theorem backup_before_write_counterexample :
    editMapCellDirect ⟨"T", 0, 1, 1, "uint8", 1, 0, "u", ""⟩ 0 0 5 ⟨[7, 7], []⟩ =
        .ok ⟨[5, 7], []⟩ ∧
      ([5, 7] : List ℕ) ≠ [7, 7] ∧
      scaleMapCore ⟨"T", 0, 1, 1, "uint8", 1, 0, "u", ""⟩ (mkRat 3 2) false ⟨[7, 7], []⟩ =
        ⟨[10, 7], []⟩ ∧
      ([10, 7] : List ℕ) ≠ [7, 7] := by
  refine ⟨?_, by decide, ?_, by decide⟩ <;> with_unfolding_all decide

/-- C1 amended: only the reader-package writeConfigParam enforces the
backup discipline: with a failing backup write it aborts, returning an error
and leaving the file system unchanged, and on success the newest backup is
the pre-call image.  The direct cell editor (writeCell) never records a
backup on any successful call, and the ScaleMap path records no backup when
the backup write fails yet still mutates (see the counterexample). -/
theorem backup_discipline_amended :
    (∀ (params : List ConfigParam) (name : String) (v : ℚ) (fs : FS),
        (writeConfigParamReader params name v false fs).2 = fs ∧
          (writeConfigParamReader params name v false fs).1.isSome = true) ∧
      (∀ (params : List ConfigParam) (name : String) (v : ℚ) (fs fs2 : FS),
        writeConfigParamReader params name v true fs = (none, fs2) →
          fs2.backups = fs.image :: fs.backups) ∧
      (∀ (cfg : MapConfig) (row col : ℤ) (v : ℚ) (fs fs2 : FS),
        editMapCellDirect cfg row col v fs = .ok fs2 → fs2.backups = fs.backups) ∧
      (∀ (cfg : MapConfig) (m : ℚ) (fs : FS),
        (scaleMapCore cfg m false fs).backups = fs.backups) := by
  refine ⟨?_, ?_, ?_, ?_⟩
  · intro params name v fs
    cases hf : findParam params name with
    | none => simp [writeConfigParamReader, hf]
    | some p =>
      by_cases hr : v < p.minValue ∨ p.maxValue < v
      · simp [writeConfigParamReader, hf, hr]
      · simp [writeConfigParamReader, hf, hr]
  · intro params name v fs fs2 hsucc
    cases hf : findParam params name with
    | none =>
      simp only [writeConfigParamReader, hf] at hsucc
      simpa using congrArg Prod.fst hsucc
    | some p =>
      simp only [writeConfigParamReader, hf] at hsucc
      by_cases hr : v < p.minValue ∨ p.maxValue < v
      · rw [if_pos hr] at hsucc
        simpa using congrArg Prod.fst hsucc
      · rw [if_neg hr, if_neg (by simp : ¬(true = false))] at hsucc
        by_cases ho : p.offset < 0
        · rw [if_pos ho] at hsucc
          simpa using congrArg Prod.fst hsucc
        · rw [if_neg ho] at hsucc
          cases he : encodeParamBytes p v with
          | none =>
            rw [he] at hsucc
            simpa using congrArg Prod.fst hsucc
          | some bs =>
            rw [he] at hsucc
            have hsnd := congrArg Prod.snd hsucc
            simp only at hsnd
            rw [← hsnd]
  · intro cfg row col v fs fs2 hok
    simp only [editMapCellDirect] at hok
    split at hok
    · exact absurd hok (by simp)
    · split at hok
      · exact absurd hok (by simp)
      · split at hok
        · exact absurd hok (by simp)
        · split at hok
          · rw [← Except.ok.inj hok]
          · split at hok
            · split at hok
              · exact absurd hok (by simp)
              · rw [← Except.ok.inj hok]
            · rw [← Except.ok.inj hok]
  · intro cfg m fs
    simp only [scaleMapCore]
    split
    · rfl
    · simp

/-- Witness for the amended C1: a successful catalog write records the prior
image as the newest backup, and a successful direct cell edit records
nothing. -/
theorem backup_discipline_amended_witness :
    (writeConfigParamReader [⟨"P", 0, "uint8", 1, 0, "raw", "", 0, 255⟩] "P" 5 true
          ⟨[0], []⟩ = (none, ⟨[5], [[0]]⟩)) ∧
      (FS.mk [5] [[0]]).backups = [0] :: ([] : List (List ℕ)) ∧
      editMapCellDirect ⟨"T", 0, 1, 1, "uint8", 1, 0, "u", ""⟩ 0 0 9 ⟨[0], []⟩ =
        .ok ⟨[9], []⟩ ∧
      (FS.mk [9] []).backups = ([] : List (List ℕ)) := by
  have hw : writeConfigParamReader [⟨"P", 0, "uint8", 1, 0, "raw", "", 0, 255⟩] "P" 5 true
      ⟨[0], []⟩ = (none, ⟨[5], [[0]]⟩) := by with_unfolding_all decide
  have he : editMapCellDirect ⟨"T", 0, 1, 1, "uint8", 1, 0, "u", ""⟩ 0 0 9 ⟨[0], []⟩ =
      .ok ⟨[9], []⟩ := by with_unfolding_all decide
  exact ⟨hw,
    backup_discipline_amended.2.1 [⟨"P", 0, "uint8", 1, 0, "raw", "", 0, 255⟩] "P" 5
      ⟨[0], []⟩ ⟨[5], [[0]]⟩ hw,
    he,
    backup_discipline_amended.2.2.1 ⟨"T", 0, 1, 1, "uint8", 1, 0, "u", ""⟩ 0 0 9
      ⟨[0], []⟩ ⟨[9], []⟩ he⟩


theorem readCells_u16 (img : List ℕ) (dt : String) (hdt : ¬(dt = "uint8")) :
    ∀ (n pos : ℕ), pos + 2 * n ≤ img.length →
      readCells img dt pos n =
        some ((List.range n).map (fun k => u16LEat img (pos + 2 * k))) := by
  intro n
  induction n with
  | zero => intro pos h; simp [readCells]
  | succ n ih =>
    intro pos h
    have hw : cellWidth dt = 2 := by rw [cellWidth, if_neg hdt]
    have hval : readVal img dt pos = some (u16LEat img pos) := by
      rw [readVal, if_neg hdt, readU16LE, if_pos (by omega)]
    rw [readCells, hval, hw, ih (pos + 2) (by omega)]
    refine congrArg some ?_
    rw [List.range_succ_eq_map, List.map_cons, List.map_map]
    refine congrArg₂ List.cons (by simp) ?_
    refine congrArg (fun h => List.map h (List.range n)) ?_
    funext k
    simp only [Function.comp]
    exact congrArg (u16LEat img) (by omega)

theorem readRows_u16 (img : List ℕ) (dt : String) (scale bias : ℚ) (cols : ℕ)
    (hdt : ¬(dt = "uint8")) :
    ∀ (r pos : ℕ), pos + 2 * (r * cols) ≤ img.length →
      readRows img dt scale bias cols pos r =
        some ((List.range r).map (fun i => (List.range cols).map (fun j =>
          decodeVal (u16LEat img (pos + 2 * (i * cols + j))) scale bias))) := by
  intro r
  induction r with
  | zero => intro pos h; simp [readRows]
  | succ r ih =>
    intro pos h
    have hmul : (r + 1) * cols = r * cols + cols := by ring
    have hw : cellWidth dt = 2 := by rw [cellWidth, if_neg hdt]
    have hcols : readCells img dt pos cols =
        some ((List.range cols).map (fun k => u16LEat img (pos + 2 * k))) :=
      readCells_u16 img dt hdt cols pos (by omega)
    rw [readRows, hcols, hw, ih (pos + cols * 2) (by omega)]
    refine congrArg some ?_
    rw [List.range_succ_eq_map, List.map_cons, List.map_map, List.map_map]
    refine congrArg₂ List.cons ?_ ?_
    · refine congrArg (fun h => List.map h (List.range cols)) ?_
      funext j
      simp only [Function.comp]
      exact congrArg (fun x => decodeVal (u16LEat img x) scale bias) (by omega)
    · refine congrArg (fun h => List.map h (List.range r)) ?_
      funext i
      simp only [Function.comp]
      refine congrArg (fun h => List.map h (List.range cols)) ?_
      funext j
      refine congrArg (fun x => decodeVal (u16LEat img x) scale bias) ?_
      have h2 : (i + 1) * cols = i * cols + cols := by ring
      have h3 : Nat.succ i * cols = i * cols + cols := by rw [Nat.succ_mul]
      omega

/-- C9: for every descriptor whose data-type tag is anything other than
"uint8" (for example "int8", "int16" or an unrecognized tag), the table
reader decodes every cell as an unsigned 16-bit little-endian integer and
succeeds whenever the bytes are available — it has no unsupported-data-type
error outcome and never consults a big-endian byte order. -/
theorem readMap_nonuint8_reads_u16le (img : List ℕ) (cfg : MapConfig)
    (hdt : ¬(cfg.dataType = "uint8")) (hoff : 0 ≤ cfg.offset)
    (hlen : cfg.offset.toNat + 2 * (cfg.rows * cfg.cols) ≤ img.length) :
    readMap img cfg = some ((List.range cfg.rows).map (fun i =>
      (List.range cfg.cols).map (fun j =>
        decodeVal (u16LEat img (cfg.offset.toNat + 2 * (i * cfg.cols + j)))
          cfg.scale cfg.offset2))) := by
  rw [readMap, if_neg (not_lt.2 hoff)]
  exact readRows_u16 img cfg.dataType cfg.scale cfg.offset2 cfg.cols hdt
    cfg.rows cfg.offset.toNat hlen

/-- Witness for C9: a 1×2 descriptor tagged "int16" over the four-byte image
[1,0,2,0] reads the little-endian cells 1 and 2. -/
theorem readMap_nonuint8_reads_u16le_witness :
    (¬((⟨"T", 0, 1, 2, "int16", 1, 0, "u", ""⟩ : MapConfig).dataType = "uint8") ∧
        (0 : ℤ) ≤ 0 ∧ (0 : ℤ).toNat + 2 * (1 * 2) ≤ ([1, 0, 2, 0] : List ℕ).length) ∧
      readMap [1, 0, 2, 0] ⟨"T", 0, 1, 2, "int16", 1, 0, "u", ""⟩ = some [[1, 2]] := by
  refine ⟨⟨by decide, by decide, by decide⟩, ?_⟩
  have h := readMap_nonuint8_reads_u16le [1, 0, 2, 0] ⟨"T", 0, 1, 2, "int16", 1, 0, "u", ""⟩
    (by decide) (by decide) (by decide)
  rw [h]
  with_unfolding_all decide


/-- C10: the 8-bit scan pass only examines offsets that are multiples of 0x40
with `offset + rows*cols` strictly below the image length, so every reported
candidate window ends strictly before the last byte of the image, and the
aligned offset of a window occupying exactly the final rows*cols bytes is
never visited (hence such a table is never reported). -/
theorem scanForMapsU8_aligned_bounded (data : List ℕ) (rows cols : ℕ) (r : ScanResult)
    (hr : r ∈ scanForMapsU8 data rows cols) :
    r.offset % 0x40 = 0 ∧ r.offset + rows * cols < data.length ∧
      r.offset ≠ data.length - rows * cols ∧
      data.length - rows * cols ∉ scanOffsets data.length (rows * cols) := by
  obtain ⟨o, ho, hacc⟩ := List.mem_filterMap.1 hr
  have hoff : r.offset = o := by
    simp only [scanUint8] at hacc
    split at hacc
    · exact absurd hacc (by simp)
    · split at hacc
      · exact absurd hacc (by simp)
      · rw [← Option.some.inj hacc]
  simp only [scanOffsets, List.mem_filter, List.mem_range, Bool.and_eq_true,
    decide_eq_true_eq] at ho
  obtain ⟨-, hmod, hlt⟩ := ho
  refine ⟨hoff ▸ hmod, hoff ▸ hlt, by rw [hoff]; omega, ?_⟩
  simp only [scanOffsets, List.mem_filter, List.mem_range, Bool.and_eq_true,
    decide_eq_true_eq]
  rintro ⟨-, -, hbad⟩
  omega

set_option maxRecDepth 100000 in
/-- Witness for C10 on a 65-byte image whose first 8×8 window has spread 20. -/
theorem scanForMapsU8_aligned_bounded_witness :
    ((⟨0, 8, 8, "uint8", "N/A", 0, 20, mkRat 1575 256⟩ : ScanResult) ∈
        scanForMapsU8 (0 :: List.replicate 64 20) 8 8) ∧
      (0 : ℕ) % 0x40 = 0 ∧ 0 + 8 * 8 < (0 :: List.replicate 64 20).length ∧
        (0 : ℕ) ≠ (0 :: List.replicate 64 20).length - 8 * 8 ∧
        (0 :: List.replicate 64 20).length - 8 * 8 ∉
          scanOffsets (0 :: List.replicate 64 20).length (8 * 8) := by
  have hmem : (⟨0, 8, 8, "uint8", "N/A", 0, 20, mkRat 1575 256⟩ : ScanResult) ∈
      scanForMapsU8 (0 :: List.replicate 64 20) 8 8 := by
    with_unfolding_all decide
  exact ⟨hmem, scanForMapsU8_aligned_bounded (0 :: List.replicate 64 20) 8 8
    ⟨0, 8, 8, "uint8", "N/A", 0, 20, mkRat 1575 256⟩ hmem⟩

end ECUReader
